import Mathlib

/-!
Verification development for the FNBrainVault crawl/download engine.

Shallow embedding of the crawl orchestration code in `webmark_uefn.py`,
`download_manager.py` and `markdown_utils.py`:

* `downloadLoop` / `download_with_retry` embed
  `DownloadManager.download_with_retry` (webmark_uefn.py, lines 135-233).
  The Python `while retries < self.max_retries` loop is embedded by
  structural recursion on a `fuel` counter; the entry point passes
  `fuel = maxRetries` and every iteration consumes one unit while
  incrementing `retries`, so `fuel = maxRetries - retries` holds at every
  reachable call and the loop guard `retries < maxRetries` is checked
  exactly as in the source.  `is_shutting_down` is `False` for a whole
  run (no signal is delivered in the modelled runs), so it is omitted.
* `crawl` embeds `get_links_and_download` (webmark_uefn.py, lines 527-651),
  again with a fuel parameter standing for the native call stack: `none`
  means the modelled stack budget ran out, `some` is the value the Python
  function returns.
* `process_url` and `load_status` embed the corresponding methods of
  `download_manager.DownloadManager`.
* python dicts are embedded as association lists with python assignment
  semantics (`dictSet`), python sets as lists with membership-checked
  insertion (`setAdd`).
-/

namespace FNBrainVault

abbrev Url := String

/-- Python `d[k] = v` on a dict: overwrite in place if the key is present,
append at the end otherwise (python dicts preserve insertion order). -/
def dictSet {α : Type} : List (Url × α) → Url → α → List (Url × α)
  | [], k, v => [(k, v)]
  | (k₁, v₁) :: t, k, v =>
    if k₁ = k then (k₁, v) :: t else (k₁, v₁) :: dictSet t k v

/-- Lookup in an embedded python dict. -/
def dget {α : Type} (m : List (Url × α)) (k : Url) : Option α :=
  (m.find? (fun p => decide (p.1 = k))).map Prod.snd

/-- Python `s.add(u)` on a set, embedded as no-op insertion into a
duplicate-free list. -/
def setAdd (s : List Url) (u : Url) : List Url :=
  if u ∈ s then s else s ++ [u]

/-- Manager state touched by `download_with_retry` in webmark_uefn.py:
`completed_urls`, `failed_downloads` (url -> (status, message)),
`retry_queue`, `recursion_errors` (url -> message of the `DownloadError`)
and the sitemap status tags.

Modelled from the spec: the `Sitemap` object written by `update_sitemap`
comes from the repository's `sitemap` module, which is not under `src/`;
per the spec every terminal outcome triggers an advisory status/metadata
update, so the sitemap is embedded as the map from url to its status tag. -/
structure MState where
  completed_urls : List Url
  failed_downloads : List (Url × (Nat × String))
  retry_queue : List Url
  recursion_errors : List (Url × String)
  sitemap : List (Url × String)
deriving DecidableEq

def emptyMState : MState := ⟨[], [], [], [], []⟩

/-- Configuration read in `DownloadManager.__init__`:
`max_retries = retry_attempts`, `retryDelay = rate_limit_delay`
(the code calls it `self.retry_delay`).  Delays are kept symbolic as
naturals; only the multiplicative structure of the delay formulas is
relevant to the spec. -/
structure Config where
  maxRetries : Nat
  retryDelay : Nat
deriving DecidableEq

/-- One attempt of `session.get(url)` inside `download_with_retry`:
either an HTTP response with a status code and body, or one of the three
exception classes the code catches (`aiohttp.ClientError`,
`RecursionError`, any other `Exception` with its type name). -/
inductive FetchResult where
  | status (code : Nat) (body : String)
  | clientError (msg : String)
  | recursionError (msg : String)
  | otherError (etype : String) (msg : String)
deriving DecidableEq

/-- Result of a `download_with_retry` call: the final manager state, the
boolean of the returned pair, the returned body (`response.text()` on
success, `None` otherwise), the sequence of `asyncio.sleep` delays in
order, and the number of `session.get` calls performed. -/
structure DWROutcome where
  state : MState
  ok : Bool
  body : Option String
  delays : List Nat
  fetches : Nat
deriving DecidableEq

/-- `update_sitemap(url, children, status)`: records the status tag for
the url (children and timestamps are not observed by any claim). -/
def updateSitemap (st : MState) (url tag : String) : MState :=
  { st with sitemap := dictSet st.sitemap url tag }

/-- Body of the `while retries < self.max_retries` loop of
`DownloadManager.download_with_retry` (webmark_uefn.py, lines 141-233).
`fetch n` is the outcome of the `n`-th `session.get`.  The branch order
(200; 502/503/504; 404; 429; 403; 401; 408; any other status; the three
`except` clauses) mirrors the source exactly.  `fuel` only drives the
structural recursion: the entry point calls with `fuel = cfg.maxRetries`
and `retries = 0`, so `fuel = cfg.maxRetries - retries` everywhere and at
`fuel = 0` the guard `retries < cfg.maxRetries` is false, matching the
loop-exit value `(False, None)` returned on line 233. -/
def downloadLoop (cfg : Config) (fetch : Nat → FetchResult) (url : Url) :
    Nat → MState → Nat → Nat → DWROutcome
  | 0, st, _, _ => ⟨st, false, none, [], 0⟩
  | fuel + 1, st, retries, attempt =>
    if retries < cfg.maxRetries then
      match fetch attempt with
      | .status code body =>
        if code = 200 then
          let st₁ := { st with completed_urls := setAdd st.completed_urls url }
          ⟨updateSitemap st₁ url "success", true, some body, [], 1⟩
        else if code = 502 ∨ code = 503 ∨ code = 504 then
          if retries + 1 < cfg.maxRetries then
            let d := cfg.retryDelay * 2 ^ (retries + 1)
            let r := downloadLoop cfg fetch url fuel st (retries + 1) (attempt + 1)
            ⟨r.state, r.ok, r.body, d :: r.delays, r.fetches + 1⟩
          else ⟨st, false, none, [], 1⟩
        else if code = 404 then
          ⟨updateSitemap st url "404_not_found", false, none, [], 1⟩
        else if code = 429 then
          if retries + 1 < cfg.maxRetries then
            let d := cfg.retryDelay * 5
            let r := downloadLoop cfg fetch url fuel st (retries + 1) (attempt + 1)
            ⟨r.state, r.ok, r.body, d :: r.delays, r.fetches + 1⟩
          else ⟨st, false, none, [], 1⟩
        else if code = 403 then
          ⟨updateSitemap st url "403_forbidden", false, none, [], 1⟩
        else if code = 401 then
          ⟨updateSitemap st url "401_unauthorized", false, none, [], 1⟩
        else if code = 408 then
          if retries + 1 < cfg.maxRetries then
            let r := downloadLoop cfg fetch url fuel st (retries + 1) (attempt + 1)
            ⟨r.state, r.ok, r.body, cfg.retryDelay :: r.delays, r.fetches + 1⟩
          else ⟨st, false, none, [], 1⟩
        else
          let st₁ := { st with
            failed_downloads :=
              dictSet st.failed_downloads url (code, "HTTP " ++ toString code),
            retry_queue := st.retry_queue ++ [url] }
          ⟨updateSitemap st₁ url ("failed_" ++ toString code), false, none, [], 1⟩
      | .clientError msg =>
        if retries + 1 < cfg.maxRetries then
          let r := downloadLoop cfg fetch url fuel st (retries + 1) (attempt + 1)
          ⟨r.state, r.ok, r.body, cfg.retryDelay :: r.delays, r.fetches + 1⟩
        else
          let st₁ := { st with
            failed_downloads := dictSet st.failed_downloads url (0, msg),
            retry_queue := st.retry_queue ++ [url] }
          ⟨updateSitemap st₁ url "client_error", false, none, [], 1⟩
      | .recursionError msg =>
        let st₁ := { st with
          recursion_errors := dictSet st.recursion_errors url msg }
        ⟨updateSitemap st₁ url "recursion_error", false, none, [], 1⟩
      | .otherError etype msg =>
        if retries + 1 < cfg.maxRetries then
          let r := downloadLoop cfg fetch url fuel st (retries + 1) (attempt + 1)
          ⟨r.state, r.ok, r.body, cfg.retryDelay :: r.delays, r.fetches + 1⟩
        else
          let st₁ := { st with
            failed_downloads := dictSet st.failed_downloads url (0, msg),
            retry_queue := st.retry_queue ++ [url] }
          ⟨updateSitemap st₁ url ("error_" ++ etype), false, none, [], 1⟩
    else ⟨st, false, none, [], 0⟩

/-- `DownloadManager.download_with_retry`: skip urls already in
`completed_urls` (line 138), otherwise run the retry loop from
`retries = 0`. -/
def download_with_retry (cfg : Config) (fetch : Nat → FetchResult)
    (url : Url) (st : MState) : DWROutcome :=
  if url ∈ st.completed_urls then ⟨st, true, none, [], 0⟩
  else downloadLoop cfg fetch url cfg.maxRetries st 0 0

/-- The exponential-backoff delay sequence `d·2^k, d·2^(k+1), …` of a
given length, the shape produced by repeated 502/503/504 responses. -/
def expDelays (d : Nat) (k : Nat) : Nat → List Nat
  | 0 => []
  | n + 1 => d * 2 ^ k :: expDelays d (k + 1) n

/-! ## The recursive discoverer: `get_links_and_download` -/

/-- Substring test on strings: python `in`, javascript `includes`. -/
def strContains (s pat : String) : Bool :=
  s.toList.tails.any (fun t => pat.toList.isPrefixOf t)

/-- Suffix test on strings: python / javascript `endswith`. -/
def strEndsWith (s suffix : String) : Bool :=
  suffix.toList.isSuffixOf s.toList

/-- Python `s.split(sep)` for a one-character separator. -/
def splitChar (sep : Char) : List Char → List (List Char)
  | [] => [[]]
  | c :: cs =>
    match splitChar sep cs with
    | [] => [[]]
    | r :: rs => if c = sep then [] :: r :: rs else (c :: r) :: rs

/-- Characters after the first `://`, empty when there is none; helper for
modelling `urllib.parse.urlparse` on absolute http(s) urls. -/
def afterSchemeList : List Char → List Char
  | [] => []
  | c :: t =>
    if [':', '/', '/'].isPrefixOf (c :: t) then t.drop 2 else afterSchemeList t

/-- `urlparse(url).netloc` for an absolute http(s) url. -/
def hostOf (url : String) : String :=
  String.mk ((afterSchemeList url.toList).takeWhile (fun c => ¬ c = '/'))

/-- `urlparse(url).path` for an absolute http(s) url. -/
def pathOf (url : String) : String :=
  String.mk ((afterSchemeList url.toList).dropWhile (fun c => ¬ c = '/'))

/-- `parsed_url.path.split('/')[4]`, the segment the code calls the doc
type; `none` when the path has fewer than five `/`-separated segments
(python raises `IndexError` there, caught by the enclosing `except`,
which makes `get_links_and_download` return `[]`). -/
def docTypeOf (url : String) : Option String :=
  ((splitChar '/' (pathOf url).toList).map String.mk).get? 4

/-- The javascript link filter installed by `get_links_and_download`
(webmark_uefn.py, lines 616-625): keep hrefs containing the substring
`/documentation/en-us/<docType>`, drop hrefs containing `#` and hrefs
ending in `.png` or `.jpg`.  Note there is no host check. -/
def linkFilter (docType : String) (href : String) : Bool :=
  strContains href ("/documentation/en-us/" ++ docType) &&
  !strContains href "#" &&
  !strEndsWith href ".png" &&
  !strEndsWith href ".jpg"

/-- Python `path.lstrip('/')`. -/
def lstripSlash (s : String) : String :=
  String.mk (s.toList.dropWhile (fun c => c = '/'))

/-- The markdown file path both checked by `get_links_and_download`
(`os.path.exists`) and written by `MarkdownProcessor.save_content`:
the url path without leading slashes, `.md` appended when missing (the
constant output-directory prefix is omitted from the model). -/
def filePathOf (url : Url) : String :=
  let rel := lstripSlash (pathOf url)
  if strEndsWith rel ".md" then rel else rel ++ ".md"

/-- A link graph: the anchor hrefs each rendered page exposes. -/
abbrev Graph := List (Url × List Url)

/-- The anchors of a page; a page outside the graph has none. -/
def anchors (g : Graph) (u : Url) : List Url := (dget g u).getD []

/-- Run-local crawl state: `processed` is the mutable `processed_urls`
set shared by all recursive calls, `files` the markdown files on disk,
`trace` the sequence of `page.get` navigations in order, and `saved` the
pages extracted and written during this run. -/
structure CrawlSt where
  processed : List Url
  files : List String
  trace : List Url
  saved : List Url
deriving DecidableEq

/-- State at the start of a run: fresh `processed_urls`, given disk. -/
def initCrawl (files : List String) : CrawlSt := ⟨[], files, [], []⟩

/-- The `for href in hrefs` loop of `get_links_and_download`: recurse via
`down` into every href not yet processed, threading the shared state and
unioning the child links into one set. -/
def crawlChildren (down : CrawlSt → Url → Option (List Url × CrawlSt)) :
    CrawlSt → List Url → Option (List Url × CrawlSt)
  | st, [] => some ([], st)
  | st, h :: t =>
    if h ∈ st.processed then crawlChildren down st t
    else
      match down st h with
      | none => none
      | some (ls, st₁) =>
        match crawlChildren down st₁ t with
        | none => none
        | some (ls₂, st₂) => some (ls.union ls₂, st₂)

/-- Lines 535-612 of one `get_links_and_download` call: add the url to
the visited set *before* anything else (line 535), navigate to it
(`page.get`, recorded in `trace`), and extract and save its content
unless its markdown file already exists and `force_download` is false. -/
def visitMark (force : Bool) (st : CrawlSt) (url : Url) : CrawlSt :=
  let st₂ : CrawlSt :=
    { st with processed := url :: st.processed, trace := st.trace ++ [url] }
  let fp := filePathOf url
  if force = true ∨ fp ∉ st₂.files then
    { st₂ with
      files := if fp ∈ st₂.files then st₂.files else st₂.files ++ [fp],
      saved := st₂.saved ++ [url] }
  else st₂

/-- One call of `get_links_and_download` (webmark_uefn.py, lines
527-651), given the recursive continuation `down`: return `[]` at once
if the url was already visited this run; otherwise visit it via
`visitMark`, compute the doc-type segment (a too-short path raises
`IndexError`, caught by the outer `except`, returning `[]`), filter the
page anchors through `linkFilter`, and recurse into the unvisited
filtered hrefs, returning the filtered anchors unioned with the
recursively discovered links. -/
def crawlStep (g : Graph) (force : Bool)
    (down : CrawlSt → Url → Option (List Url × CrawlSt))
    (st : CrawlSt) (url : Url) : Option (List Url × CrawlSt) :=
  if url ∈ st.processed then some ([], st)
  else
    match docTypeOf url with
    | none => some ([], visitMark force st url)
    | some d =>
      let hrefs := (anchors g url).filter (linkFilter d)
      match crawlChildren down (visitMark force st url) hrefs with
      | none => none
      | some (cls, st₄) => some (hrefs.union cls, st₄)

/-- `get_links_and_download`, with a fuel parameter standing for the
native python call stack: `none` means the modelled stack budget ran
out, `some` is the value the function returns. -/
def crawl (g : Graph) (force : Bool) : Nat → CrawlSt → Url → Option (List Url × CrawlSt)
  | 0 => fun _ _ => none
  | fuel + 1 => crawlStep g force (crawl g force fuel)

/-- Every url mentioned in the graph (keys and anchor targets): the crawl
only ever recurses into members of this list. -/
def urlsOf (g : Graph) : List Url := g.map Prod.fst ++ (g.map Prod.snd).flatten

/-- Number of graph urls not yet visited: the termination measure. -/
def newUrlCount (g : Graph) (st : CrawlSt) : Nat :=
  ((urlsOf g).dedup.filter (fun u => decide (u ∉ st.processed))).length

/-- Relation between the state before and after one successful
(sub)crawl: the visited set, disk and trace only grow; every new trace
entry was unvisited before and has its file on disk afterwards; every
new saved page was navigated to, was unvisited, and (unless forced) had
no file before; a duplicate-free trace inside the visited set stays so. -/
def StepProp (force : Bool) (st st' : CrawlSt) : Prop :=
  st.processed ⊆ st'.processed ∧
  st.files ⊆ st'.files ∧
  st.trace <+: st'.trace ∧
  (∀ u, u ∈ st'.trace → u ∈ st.trace ∨
    (u ∈ st'.processed ∧ u ∉ st.processed ∧ filePathOf u ∈ st'.files)) ∧
  (∀ u, u ∈ st'.saved → u ∈ st.saved ∨
    (u ∈ st'.trace ∧ u ∉ st.processed ∧ (force = false → filePathOf u ∉ st.files))) ∧
  ((st.trace.Nodup ∧ ∀ u ∈ st.trace, u ∈ st.processed) →
    (st'.trace.Nodup ∧ ∀ u ∈ st'.trace, u ∈ st'.processed))

/-- Two crawl states that agree on the control-relevant fields (the
visited set and the trace); the disk contents never influence which
pages get visited. -/
def SimR (s₁ s₂ : CrawlSt) : Prop :=
  s₁.processed = s₂.processed ∧ s₁.trace = s₂.trace

/-- `SimR` lifted to crawl results. -/
def OptSim : Option (List Url × CrawlSt) → Option (List Url × CrawlSt) → Prop
  | none, none => True
  | some (l₁, s₁), some (l₂, s₂) => l₁ = l₂ ∧ SimR s₁ s₂
  | _, _ => False

/-! ## download_manager.py: `process_url`, `load_status` -/

/-- One entry of `self.status_map` as written by `process_url`
(download_manager.py, lines 129-133): status code, error message and an
ISO timestamp. -/
structure StatusEntry where
  status_code : Nat
  error_message : String
  timestamp : String
deriving DecidableEq

/-- The `download_manager.DownloadManager` state fields touched by
`process_url` and `load_status`. -/
structure DMgrState where
  completed_urls : List Url
  failed_downloads : List (Url × (Nat × String))
  retry_queue : List Url
  status_map : List (Url × StatusEntry)
  recursion_errors : List (Url × String)
deriving DecidableEq

/-- The failure path shared by the non-200 branch and the `except` branch
of `process_url`: record `(code, msg)` in `failed_downloads`, append the
url to `retry_queue` and write the status-map entry. -/
def recordFail (st : DMgrState) (url : Url) (code : Nat) (msg ts : String) : DMgrState :=
  { st with
    failed_downloads := dictSet st.failed_downloads url (code, msg),
    retry_queue := st.retry_queue ++ [url],
    status_map := dictSet st.status_map url ⟨code, msg, ts⟩ }

/-- `DownloadManager.process_url` (download_manager.py, lines 113-155).
`resp` is the outcome of `session.get` (an exception or a status code and
body), `pageOk` the outcome of `response.text()` / `process_page`, `ts`
the timestamp `datetime.now().isoformat()`, and `hasStatusCb` /
`hasProgressCb` say whether the two optional observer callbacks are
attached.  The returned list holds the notifications delivered to the
observers (the progress value itself is a float and is abstracted to the
marker string). -/
def process_url (st : DMgrState) (url : Url) (resp : Except String (Nat × String))
    (pageOk : Except String Unit) (force hasStatusCb hasProgressCb : Bool)
    (ts : String) : DMgrState × Bool × List String :=
  if url ∈ st.completed_urls ∧ force = false then (st, true, [])
  else
    let notif := if hasStatusCb then ["Processing " ++ url] else []
    match resp with
    | .error e => (recordFail st url 0 e ts, false, notif)
    | .ok (code, _) =>
      if code ≠ 200 then
        (recordFail st url code ("HTTP " ++ toString code) ts, false, notif)
      else
        match pageOk with
        | .error e => (recordFail st url 0 e ts, false, notif)
        | .ok _ =>
          let st₁ := { st with completed_urls := setAdd st.completed_urls url }
          (st₁, true, notif ++ (if hasProgressCb then ["progress"] else []))

/-- Body of the `for url, status in self.status_map.items()` loop of
`load_status`: record the entry in `failed_downloads`, append to
`retry_queue` and add to `completed_urls` (download_manager.py, lines
315-318 and identically webmark_uefn.py, lines 353-356). -/
def applyStatusEntry (st : DMgrState) (p : Url × StatusEntry) : DMgrState :=
  { st with
    failed_downloads :=
      dictSet st.failed_downloads p.1 (p.2.status_code, p.2.error_message),
    retry_queue := st.retry_queue ++ [p.1],
    completed_urls := setAdd st.completed_urls p.1 }

/-- `DownloadManager.load_status` on an existing status file whose parsed
content is `m`: store `m` as the status map, then run the loop. -/
def load_status (st : DMgrState) (m : List (Url × StatusEntry)) : DMgrState :=
  m.foldl applyStatusEntry { st with status_map := m }

/-! ## The persistent state store -/

/-- A value of the pickled snapshot dict produced by
`DownloadState.save`: the three field values of the dataclass. -/
inductive PVal where
  | strSet (s : List String)
  | failMap (m : List (String × (Nat × String)))
  | strList (l : List String)
deriving DecidableEq

/-- The `DownloadState` dataclass (webmark_uefn.py, lines 44-62 and
download_manager.py, lines 21-39): the three persisted fields. -/
structure DLState where
  completed_urls : List String
  failed_downloads : List (String × (Nat × String))
  retry_queue : List String
deriving DecidableEq

/-- `asdict(self)`, the dict pickled by `DownloadState.save`: exactly the
keys `completed_urls`, `failed_downloads` and `retry_queue`. -/
def stateDict (st : DLState) : List (String × PVal) :=
  [("completed_urls", PVal.strSet st.completed_urls),
    ("failed_downloads", PVal.failMap st.failed_downloads),
    ("retry_queue", PVal.strList st.retry_queue)]

/-- Byte content of the state file.  Modelled from the spec and the
python stdlib contract of the `pickle` module (an external collaborator):
`pickled d` is a valid pickle serialization of the dict `d` and restores
it losslessly, any other byte content is `garbage s`. -/
inductive FileBytes where
  | pickled (d : List (String × PVal))
  | garbage (s : String)
deriving DecidableEq

/-- `pickle.load`: restores a valid serialization, raises
`UnpicklingError` on anything else. -/
def pickleLoad : FileBytes → Except String (List (String × PVal))
  | .pickled d => .ok d
  | .garbage s => .error ("UnpicklingError: " ++ s)

/-- `DownloadState.load` (webmark_uefn.py, lines 55-62): `none` for the
file argument means the state file does not exist, in which case the
method returns python `None`; otherwise the file is unpickled — an
unpickling error propagates to the caller, there is no try/except — and
the dataclass is rebuilt from the dict via `cls(**data)` (a dict with
wrong keys or value shapes raises `TypeError`). -/
def DownloadState_load (file : Option FileBytes) : Except String (Option DLState) :=
  match file with
  | none => .ok none
  | some b =>
    match pickleLoad b with
    | .error e => .error e
    | .ok d =>
      match dget d "completed_urls", dget d "failed_downloads", dget d "retry_queue" with
      | some (.strSet c), some (.failMap f), some (.strList r) => .ok (some ⟨c, f, r⟩)
      | _, _, _ => .error "TypeError"

/-- `DownloadManager._load_state` (download_manager.py, lines 80-92) on
an existing state file holding the dict `d`: subscripts the dict with
seven keys in source order; a missing key raises `KeyError` with that
key.  On full success it rebuilds the three `DownloadState` fields (the
remaining four values are assigned to manager attributes and are not
otherwise constrained here). -/
def DM_load_state (d : List (String × PVal)) :
    Except String (List String × List (String × (Nat × String)) × List String) :=
  match dget d "completed_urls" with
  | none => .error "KeyError: completed_urls"
  | some v₁ =>
    match dget d "failed_downloads" with
    | none => .error "KeyError: failed_downloads"
    | some v₂ =>
      match dget d "retry_queue" with
      | none => .error "KeyError: retry_queue"
      | some v₃ =>
        match dget d "recursion_errors" with
        | none => .error "KeyError: recursion_errors"
        | some _ =>
          match dget d "status_map" with
          | none => .error "KeyError: status_map"
          | some _ =>
            match dget d "should_stop" with
            | none => .error "KeyError: should_stop"
            | some _ =>
              match dget d "browser" with
              | none => .error "KeyError: browser"
              | some _ =>
                match v₁, v₂, v₃ with
                | .strSet c, .failMap f, .strList r => .ok (c, f, r)
                | _, _, _ => .error "TypeError"

/-! ## Lemmas about the retry loop -/

lemma dget_dictSet_self {α : Type} (m : List (Url × α)) (k : Url) (v : α) :
    dget (dictSet m k v) k = some v := by
  induction m with
  | nil => simp [dictSet, dget]
  | cons p t ih =>
    obtain ⟨k₁, v₁⟩ := p
    by_cases h : k₁ = k
    · subst h; simp [dictSet, dget]
    · simp [dictSet, dget, h, List.find?] at ih ⊢
      simpa [dget, List.find?] using ih

lemma mem_setAdd_self (s : List Url) (u : Url) : u ∈ setAdd s u := by
  unfold setAdd
  split <;> simp [*]

lemma expDelays_get? (d : Nat) : ∀ (n k i : Nat), i < n →
    (expDelays d k n).get? i = some (d * 2 ^ (k + i)) := by
  intro n
  induction n with
  | zero => intro k i h; omega
  | succ m ih =>
    intro k i h
    cases i with
    | zero => simp [expDelays]
    | succ j =>
      have := ih (k + 1) j (by omega)
      simp only [expDelays, List.get?]
      rw [this, show k + 1 + j = k + (j + 1) from by omega]

/-- Closed form of the retry loop when every fetch returns 502, 503 or
504: the state is untouched, the call fails, there is one fetch per unit
of remaining retry budget, and the delays follow `retry_delay·2^r`. -/
lemma loop_const_5xx (cfg : Config) (code : Nat) (body : String) (url : Url) (st : MState)
    (hcode : code = 502 ∨ code = 503 ∨ code = 504) :
    ∀ fuel retries attempt, fuel + retries = cfg.maxRetries →
      downloadLoop cfg (fun _ => FetchResult.status code body) url fuel st retries attempt =
        ⟨st, false, none, expDelays cfg.retryDelay (retries + 1) (fuel - 1), fuel⟩ := by
  intro fuel
  induction fuel with
  | zero => intro retries attempt h; simp [downloadLoop, expDelays]
  | succ n IH =>
    intro retries attempt h
    have h200 : ¬ code = 200 := by rcases hcode with h1 | h1 | h1 <;> omega
    have hlt : retries < cfg.maxRetries := by omega
    simp only [downloadLoop]
    rw [if_pos hlt, if_neg h200, if_pos hcode]
    cases n with
    | zero =>
      rw [if_neg (by omega)]
      simp [expDelays]
    | succ m =>
      rw [if_pos (by omega)]
      rw [IH (retries + 1) (attempt + 1) (by omega)]
      simp [expDelays]

/-- Closed form of the retry loop when every fetch returns 429: flat
`retry_delay·5` backoff, state untouched, one fetch per unit of budget. -/
lemma loop_const_429 (cfg : Config) (body : String) (url : Url) (st : MState) :
    ∀ fuel retries attempt, fuel + retries = cfg.maxRetries →
      downloadLoop cfg (fun _ => FetchResult.status 429 body) url fuel st retries attempt =
        ⟨st, false, none, List.replicate (fuel - 1) (cfg.retryDelay * 5), fuel⟩ := by
  intro fuel
  induction fuel with
  | zero => intro retries attempt h; simp [downloadLoop]
  | succ n IH =>
    intro retries attempt h
    have hlt : retries < cfg.maxRetries := by omega
    simp only [downloadLoop]
    rw [if_pos hlt, if_neg (by decide), if_neg (by decide), if_neg (by decide),
      if_pos (by decide)]
    cases n with
    | zero =>
      rw [if_neg (by omega)]
      simp
    | succ m =>
      rw [if_pos (by omega)]
      rw [IH (retries + 1) (attempt + 1) (by omega)]
      simp [List.replicate_succ]

/-- Closed form of the retry loop when every fetch returns 408: flat
`retry_delay` backoff, state untouched, one fetch per unit of budget. -/
lemma loop_const_408 (cfg : Config) (body : String) (url : Url) (st : MState) :
    ∀ fuel retries attempt, fuel + retries = cfg.maxRetries →
      downloadLoop cfg (fun _ => FetchResult.status 408 body) url fuel st retries attempt =
        ⟨st, false, none, List.replicate (fuel - 1) cfg.retryDelay, fuel⟩ := by
  intro fuel
  induction fuel with
  | zero => intro retries attempt h; simp [downloadLoop]
  | succ n IH =>
    intro retries attempt h
    have hlt : retries < cfg.maxRetries := by omega
    simp only [downloadLoop]
    rw [if_pos hlt, if_neg (by decide), if_neg (by decide), if_neg (by decide),
      if_neg (by decide), if_neg (by decide), if_neg (by decide), if_pos (by decide)]
    cases n with
    | zero =>
      rw [if_neg (by omega)]
      simp
    | succ m =>
      rw [if_pos (by omega)]
      rw [IH (retries + 1) (attempt + 1) (by omega)]
      simp [List.replicate_succ]

/-- Closed form of the retry loop when every fetch raises
`aiohttp.ClientError`: after the budget is exhausted the pair
`(0, message)` is recorded in `failed_downloads`, the url is appended to
`retry_queue` and the sitemap tag is `client_error`. -/
lemma loop_const_clientError (cfg : Config) (msg : String) (url : Url) (st : MState) :
    ∀ fuel retries attempt, fuel + retries = cfg.maxRetries → 0 < fuel →
      downloadLoop cfg (fun _ => FetchResult.clientError msg) url fuel st retries attempt =
        ⟨⟨st.completed_urls, dictSet st.failed_downloads url (0, msg),
            st.retry_queue ++ [url], st.recursion_errors,
            dictSet st.sitemap url "client_error"⟩,
          false, none, List.replicate (fuel - 1) cfg.retryDelay, fuel⟩ := by
  intro fuel
  induction fuel with
  | zero => intro retries attempt h hpos; omega
  | succ n IH =>
    intro retries attempt h _
    have hlt : retries < cfg.maxRetries := by omega
    simp only [downloadLoop]
    rw [if_pos hlt]
    cases n with
    | zero =>
      rw [if_neg (by omega)]
      simp [updateSitemap]
    | succ m =>
      rw [if_pos (by omega)]
      rw [IH (retries + 1) (attempt + 1) (by omega) (by omega)]
      simp [List.replicate_succ]

/-! ## C1, C4, C8: the retry controller -/

/-- C1: for every fetch outcome the retry controller returns the
documented decision: 200 succeeds and adds the url to `completed_urls`;
502/503/504/429/408 are retried, capped at `max_retries` fetch attempts;
401/403/404 fail permanently after a single fetch; any other status fails
permanently with sitemap tag `failed_<status>`, the pair
`(status, "HTTP <status>")` in `failed_downloads` and the url appended to
`retry_queue`; a client error is retried up to `max_retries` attempts and
then fails permanently carrying the exception text. -/
theorem download_with_retry_policy (cfg : Config) (st : MState) (url : Url)
    (body msg : String) (hmax : 0 < cfg.maxRetries) (hnew : url ∉ st.completed_urls) :
    ((download_with_retry cfg (fun _ => FetchResult.status 200 body) url st).ok = true ∧
      url ∈ (download_with_retry cfg (fun _ => FetchResult.status 200 body) url st).state.completed_urls)
    ∧ (∀ code, code = 502 ∨ code = 503 ∨ code = 504 ∨ code = 429 ∨ code = 408 →
        (download_with_retry cfg (fun _ => FetchResult.status code body) url st).ok = false ∧
        (download_with_retry cfg (fun _ => FetchResult.status code body) url st).fetches = cfg.maxRetries)
    ∧ (∀ code, code = 401 ∨ code = 403 ∨ code = 404 →
        (download_with_retry cfg (fun _ => FetchResult.status code body) url st).ok = false ∧
        (download_with_retry cfg (fun _ => FetchResult.status code body) url st).fetches = 1)
    ∧ (∀ code, ¬ code ∈ ([200, 502, 503, 504, 404, 429, 403, 401, 408] : List Nat) →
        (download_with_retry cfg (fun _ => FetchResult.status code body) url st).ok = false ∧
        dget (download_with_retry cfg (fun _ => FetchResult.status code body) url st).state.failed_downloads url
          = some (code, "HTTP " ++ toString code) ∧
        url ∈ (download_with_retry cfg (fun _ => FetchResult.status code body) url st).state.retry_queue ∧
        dget (download_with_retry cfg (fun _ => FetchResult.status code body) url st).state.sitemap url
          = some ("failed_" ++ toString code) ∧
        (download_with_retry cfg (fun _ => FetchResult.status code body) url st).fetches = 1)
    ∧ ((download_with_retry cfg (fun _ => FetchResult.clientError msg) url st).ok = false ∧
        (download_with_retry cfg (fun _ => FetchResult.clientError msg) url st).fetches = cfg.maxRetries ∧
        dget (download_with_retry cfg (fun _ => FetchResult.clientError msg) url st).state.failed_downloads url
          = some (0, msg) ∧
        url ∈ (download_with_retry cfg (fun _ => FetchResult.clientError msg) url st).state.retry_queue) := by
  obtain ⟨n, hn⟩ : ∃ n, cfg.maxRetries = n + 1 := ⟨cfg.maxRetries - 1, by omega⟩
  refine ⟨?_, ?_, ?_, ?_, ?_⟩
  · unfold download_with_retry
    rw [if_neg hnew, hn]
    simp only [downloadLoop]
    rw [if_pos (by omega)]
    simp [updateSitemap, mem_setAdd_self]
  · intro code hcode
    unfold download_with_retry
    rw [if_neg hnew]
    rcases hcode with h | h | h | h | h <;> subst h
    · rw [loop_const_5xx cfg 502 body url st (by omega) cfg.maxRetries 0 0 (by omega)]
      exact ⟨rfl, rfl⟩
    · rw [loop_const_5xx cfg 503 body url st (by omega) cfg.maxRetries 0 0 (by omega)]
      exact ⟨rfl, rfl⟩
    · rw [loop_const_5xx cfg 504 body url st (by omega) cfg.maxRetries 0 0 (by omega)]
      exact ⟨rfl, rfl⟩
    · rw [loop_const_429 cfg body url st cfg.maxRetries 0 0 (by omega)]
      exact ⟨rfl, rfl⟩
    · rw [loop_const_408 cfg body url st cfg.maxRetries 0 0 (by omega)]
      exact ⟨rfl, rfl⟩
  · intro code hcode
    unfold download_with_retry
    rw [if_neg hnew, hn]
    simp only [downloadLoop]
    rw [if_pos (by omega)]
    rcases hcode with h | h | h <;> subst h
    · rw [if_neg (by decide), if_neg (by decide), if_neg (by decide), if_neg (by decide),
        if_neg (by decide), if_pos (by decide)]
      exact ⟨rfl, rfl⟩
    · rw [if_neg (by decide), if_neg (by decide), if_neg (by decide), if_neg (by decide),
        if_pos (by decide)]
      exact ⟨rfl, rfl⟩
    · rw [if_neg (by decide), if_neg (by decide), if_pos (by decide)]
      exact ⟨rfl, rfl⟩
  · intro code hcode
    simp only [List.mem_cons, List.not_mem_nil, or_false, not_or] at hcode
    obtain ⟨h200, h502, h503, h504, h404, h429, h403, h401, h408⟩ := hcode
    unfold download_with_retry
    rw [if_neg hnew, hn]
    simp only [downloadLoop]
    rw [if_pos (by omega), if_neg h200, if_neg (by tauto), if_neg h404, if_neg h429,
      if_neg h403, if_neg h401, if_neg h408]
    refine ⟨rfl, ?_, ?_, ?_, rfl⟩
    · simp only [updateSitemap]
      exact dget_dictSet_self _ _ _
    · simp [updateSitemap]
    · simp only [updateSitemap]
      exact dget_dictSet_self _ _ _
  · unfold download_with_retry
    rw [if_neg hnew]
    rw [loop_const_clientError cfg msg url st cfg.maxRetries 0 0 (by omega) (by omega)]
    refine ⟨rfl, rfl, ?_, ?_⟩
    · exact dget_dictSet_self _ _ _
    · simp

/-- Witness for C1 at `max_retries = 3`, `retry_delay = 1`, url `u`. -/
theorem download_with_retry_policy_witness :
    0 < (⟨3, 1⟩ : Config).maxRetries ∧ "u" ∉ emptyMState.completed_urls ∧
    ((download_with_retry ⟨3, 1⟩ (fun _ => FetchResult.status 200 "b") "u" emptyMState).ok = true ∧
      "u" ∈ (download_with_retry ⟨3, 1⟩ (fun _ => FetchResult.status 200 "b") "u" emptyMState).state.completed_urls) ∧
    ((download_with_retry ⟨3, 1⟩ (fun _ => FetchResult.status 503 "b") "u" emptyMState).ok = false ∧
      (download_with_retry ⟨3, 1⟩ (fun _ => FetchResult.status 503 "b") "u" emptyMState).fetches
        = (⟨3, 1⟩ : Config).maxRetries) :=
  ⟨by decide, by decide,
    (download_with_retry_policy ⟨3, 1⟩ emptyMState "u" "b" "m" (by decide) (by decide)).1,
    (download_with_retry_policy ⟨3, 1⟩ emptyMState "u" "b" "m" (by decide) (by decide)).2.1
      503 (by tauto)⟩

/-- C4 counterexample: at `max_retries = 3`, a url always answering 503 is
fetched three times and the call then returns failure with the manager
state completely unchanged: contrary to the claim, nothing is recorded in
`failed_downloads` and the url is not appended to `retry_queue`. -/
theorem retry_exhaustion_counterexample :
    (download_with_retry ⟨3, 1⟩ (fun _ => FetchResult.status 503 "") "u" emptyMState).state
        = emptyMState ∧
    (download_with_retry ⟨3, 1⟩ (fun _ => FetchResult.status 503 "") "u" emptyMState).fetches = 3 ∧
    dget (download_with_retry ⟨3, 1⟩
        (fun _ => FetchResult.status 503 "") "u" emptyMState).state.failed_downloads "u" = none ∧
    "u" ∉ (download_with_retry ⟨3, 1⟩
        (fun _ => FetchResult.status 503 "") "u" emptyMState).state.retry_queue := by
  decide

/-- C4 amended: a url whose fetch always returns 503 is attempted exactly
`max_retries` times with exponential backoff and the call then returns
failure leaving the manager state unchanged; in particular, unlike the
client-error path, nothing is recorded in `failed_downloads` or
`retry_queue` for the exhausted 503. -/
theorem retry_exhaustion_amended (cfg : Config) (st : MState) (url : Url) (body : String)
    (hnew : url ∉ st.completed_urls) :
    download_with_retry cfg (fun _ => FetchResult.status 503 body) url st =
      ⟨st, false, none, expDelays cfg.retryDelay 1 (cfg.maxRetries - 1), cfg.maxRetries⟩ := by
  unfold download_with_retry
  rw [if_neg hnew]
  simpa using loop_const_5xx cfg 503 body url st (by omega) cfg.maxRetries 0 0 (by omega)

/-- Witness for the amended C4 at `max_retries = 3`. -/
theorem retry_exhaustion_amended_witness :
    "u" ∉ emptyMState.completed_urls ∧
    download_with_retry ⟨3, 1⟩ (fun _ => FetchResult.status 503 "b") "u" emptyMState =
      ⟨emptyMState, false, none, expDelays 1 1 2, 3⟩ :=
  ⟨by decide, retry_exhaustion_amended ⟨3, 1⟩ emptyMState "u" "b" (by decide)⟩

/-- C8: for a fetch that keeps returning 502/503/504 the delay slept
before retry number `i + 1` is `retry_delay * 2 ^ (i + 1)` (so
`2·d, 4·d, 8·d` at retry counts 1, 2, 3), while for 429 every delay is
the flat `retry_delay * 5` and for 408 the flat `retry_delay`. -/
theorem backoff_growth (cfg : Config) (st : MState) (url : Url) (body : String)
    (hnew : url ∉ st.completed_urls) (hmax : 4 ≤ cfg.maxRetries) :
    (∀ code, code = 502 ∨ code = 503 ∨ code = 504 →
      ∀ i, i + 1 < cfg.maxRetries →
        (download_with_retry cfg (fun _ => FetchResult.status code body) url st).delays.get? i
          = some (cfg.retryDelay * 2 ^ (i + 1)))
    ∧ ((download_with_retry cfg (fun _ => FetchResult.status 503 body) url st).delays.get? 0
          = some (cfg.retryDelay * 2)
      ∧ (download_with_retry cfg (fun _ => FetchResult.status 503 body) url st).delays.get? 1
          = some (cfg.retryDelay * 4)
      ∧ (download_with_retry cfg (fun _ => FetchResult.status 503 body) url st).delays.get? 2
          = some (cfg.retryDelay * 8))
    ∧ (download_with_retry cfg (fun _ => FetchResult.status 429 body) url st).delays
        = List.replicate (cfg.maxRetries - 1) (cfg.retryDelay * 5)
    ∧ (download_with_retry cfg (fun _ => FetchResult.status 408 body) url st).delays
        = List.replicate (cfg.maxRetries - 1) cfg.retryDelay := by
  have h5 : ∀ code, code = 502 ∨ code = 503 ∨ code = 504 →
      ∀ i, i + 1 < cfg.maxRetries →
        (download_with_retry cfg (fun _ => FetchResult.status code body) url st).delays.get? i
          = some (cfg.retryDelay * 2 ^ (i + 1)) := by
    intro code hc i hi
    unfold download_with_retry
    rw [if_neg hnew, loop_const_5xx cfg code body url st hc cfg.maxRetries 0 0 (by omega)]
    have h := expDelays_get? cfg.retryDelay (cfg.maxRetries - 1) (0 + 1) i (by omega)
    rw [show 0 + 1 + i = i + 1 from by omega] at h
    exact h
  refine ⟨h5, ⟨?_, ?_, ?_⟩, ?_, ?_⟩
  · simpa using h5 503 (by tauto) 0 (by omega)
  · simpa using h5 503 (by tauto) 1 (by omega)
  · have h := h5 503 (by tauto) 2 (by omega)
    rw [h]
    norm_num
  · unfold download_with_retry
    rw [if_neg hnew, loop_const_429 cfg body url st cfg.maxRetries 0 0 (by omega)]
  · unfold download_with_retry
    rw [if_neg hnew, loop_const_408 cfg body url st cfg.maxRetries 0 0 (by omega)]

/-- Witness for C8 at `max_retries = 5`, `retry_delay = 1`. -/
theorem backoff_growth_witness :
    "u" ∉ emptyMState.completed_urls ∧ 4 ≤ (⟨5, 1⟩ : Config).maxRetries ∧
    ((download_with_retry ⟨5, 1⟩ (fun _ => FetchResult.status 503 "b") "u" emptyMState).delays.get? 0
        = some 2 ∧
      (download_with_retry ⟨5, 1⟩ (fun _ => FetchResult.status 503 "b") "u" emptyMState).delays.get? 1
        = some 4 ∧
      (download_with_retry ⟨5, 1⟩ (fun _ => FetchResult.status 503 "b") "u" emptyMState).delays.get? 2
        = some 8) :=
  ⟨by decide, by decide,
    (backoff_growth ⟨5, 1⟩ emptyMState "u" "b" (by decide) (by decide)).2.1⟩

/-! ## Lemmas about the recursive discoverer -/

lemma process_url_completed_skip (st : DMgrState) (url : Url)
    (resp : Except String (Nat × String)) (pageOk : Except String Unit)
    (a b : Bool) (ts : String) (h : url ∈ st.completed_urls) :
    process_url st url resp pageOk false a b ts = (st, true, []) := by
  unfold process_url
  rw [if_pos ⟨h, rfl⟩]



lemma stepProp_refl (force : Bool) (st : CrawlSt) : StepProp force st st :=
  ⟨fun _ h => h, fun _ h => h, List.prefix_refl _,
    fun _ hu => Or.inl hu, fun _ hu => Or.inl hu, id⟩

lemma stepProp_trans {force : Bool} {s₁ s₂ s₃ : CrawlSt}
    (h₁ : StepProp force s₁ s₂) (h₂ : StepProp force s₂ s₃) : StepProp force s₁ s₃ := by
  obtain ⟨p₁, f₁, t₁, n₁, v₁, i₁⟩ := h₁
  obtain ⟨p₂, f₂, t₂, n₂, v₂, i₂⟩ := h₂
  refine ⟨p₁.trans p₂, f₁.trans f₂, t₁.trans t₂, ?_, ?_,
    fun hi => i₂ (i₁ hi)⟩
  · intro u hu
    rcases n₂ u hu with h | ⟨hp, hnp, hf⟩
    · rcases n₁ u h with h₀ | ⟨hp₀, hnp₀, hf₀⟩
      · exact Or.inl h₀
      · exact Or.inr ⟨p₂ hp₀, hnp₀, f₂ hf₀⟩
    · exact Or.inr ⟨hp, fun hc => hnp (p₁ hc), hf⟩
  · intro u hu
    rcases v₂ u hu with h | ⟨ht, hnp, hf⟩
    · rcases v₁ u h with h₀ | ⟨ht₀, hnp₀, hf₀⟩
      · exact Or.inl h₀
      · exact Or.inr ⟨t₂.subset ht₀, hnp₀, hf₀⟩
    · exact Or.inr ⟨ht, fun hc => hnp (p₁ hc), fun hf₀ hc => hf hf₀ (f₁ hc)⟩

lemma visitMark_prop (force : Bool) (st : CrawlSt) (url : Url)
    (hp : url ∉ st.processed) : StepProp force st (visitMark force st url) := by
  unfold visitMark StepProp
  simp only []
  split
  · refine ⟨List.subset_cons_self _ _, ?_, List.prefix_append _ _, ?_, ?_, ?_⟩
    · intro x hx
      split <;> simp [hx]
    · intro u hu
      rcases List.mem_append.mp hu with h | h
      · exact Or.inl h
      · rcases List.mem_singleton.mp h with rfl
        refine Or.inr ⟨List.mem_cons_self _ _, hp, ?_⟩
        split <;> simp_all
    · intro u hu
      rcases List.mem_append.mp hu with h | h
      · exact Or.inl h
      · rcases List.mem_singleton.mp h with rfl
        refine Or.inr ⟨by simp, hp, ?_⟩
        intro hforce
        rename_i hcond
        rcases hcond with h | h
        · exact absurd hforce (by simp [h])
        · exact h
    · rintro ⟨hnd, hsub⟩
      refine ⟨?_, ?_⟩
      · rw [List.nodup_append]
        exact ⟨hnd, List.nodup_singleton _, by
          intro a ha hb
          rcases List.mem_singleton.mp hb with rfl
          exact hp (hsub a ha)⟩
      · intro u hu
        rcases List.mem_append.mp hu with h | h
        · exact List.mem_cons_of_mem _ (hsub u h)
        · rcases List.mem_singleton.mp h with rfl
          exact List.mem_cons_self _ _
  · rename_i hcond
    push_neg at hcond
    refine ⟨List.subset_cons_self _ _, fun _ h => h, List.prefix_append _ _, ?_, ?_, ?_⟩
    · intro u hu
      rcases List.mem_append.mp hu with h | h
      · exact Or.inl h
      · rcases List.mem_singleton.mp h with rfl
        exact Or.inr ⟨List.mem_cons_self _ _, hp, hcond.2⟩
    · intro u hu
      exact Or.inl hu
    · rintro ⟨hnd, hsub⟩
      refine ⟨?_, ?_⟩
      · rw [List.nodup_append]
        exact ⟨hnd, List.nodup_singleton _, by
          intro a ha hb
          rcases List.mem_singleton.mp hb with rfl
          exact hp (hsub a ha)⟩
      · intro u hu
        rcases List.mem_append.mp hu with h | h
        · exact List.mem_cons_of_mem _ (hsub u h)
        · rcases List.mem_singleton.mp h with rfl
          exact List.mem_cons_self _ _


lemma crawlChildren_prop {force : Bool}
    (down : CrawlSt → Url → Option (List Url × CrawlSt))
    (hdown : ∀ st u r, down st u = some r → StepProp force st r.2) :
    ∀ (l : List Url) (st : CrawlSt) (r), crawlChildren down st l = some r →
      StepProp force st r.2 := by
  intro l
  induction l with
  | nil =>
    intro st r h
    simp only [crawlChildren] at h
    cases h
    exact stepProp_refl _ _
  | cons a t ih =>
    intro st r h
    simp only [crawlChildren] at h
    split at h
    · exact ih st r h
    · cases hd : down st a with
      | none => rw [hd] at h; exact absurd h (by simp)
      | some r₁ =>
        rw [hd] at h
        obtain ⟨ls₁, st₁⟩ := r₁
        simp only [] at h
        cases hc : crawlChildren down st₁ t with
        | none => rw [hc] at h; exact absurd h (by simp)
        | some r₂ =>
          rw [hc] at h
          obtain ⟨ls₂, st₂⟩ := r₂
          simp only [Option.some_inj] at h
          subst h
          exact stepProp_trans (hdown st a (ls₁, st₁) hd) (ih st₁ (ls₂, st₂) hc)

lemma crawl_prop (g : Graph) (force : Bool) :
    ∀ (fuel : Nat) (st : CrawlSt) (url : Url) (r),
      crawl g force fuel st url = some r → StepProp force st r.2 := by
  intro fuel
  induction fuel with
  | zero => intro st url r h; exact absurd h (by simp [crawl])
  | succ n ih =>
    intro st url r h
    simp only [crawl, crawlStep] at h
    split at h
    · cases h; exact stepProp_refl _ _
    · rename_i hp
      cases hdoc : docTypeOf url with
      | none =>
        rw [hdoc] at h
        cases h
        exact visitMark_prop force st url hp
      | some d =>
        rw [hdoc] at h
        simp only [] at h
        cases hc : crawlChildren (crawl g force n) (visitMark force st url)
            ((anchors g url).filter (linkFilter d)) with
        | none => rw [hc] at h; exact absurd h (by simp)
        | some r₄ =>
          rw [hc] at h
          obtain ⟨ls₄, st₄⟩ := r₄
          simp only [Option.some_inj] at h
          subst h
          exact stepProp_trans (visitMark_prop force st url hp)
            (crawlChildren_prop (crawl g force n) (fun st' u' r' h' => ih st' u' r' h')
              _ _ (ls₄, st₄) hc)


lemma length_filter_lt (l P : List Url) (url : Url) (hl : url ∈ l) (hnp : url ∉ P) :
    (l.filter (fun u => decide (u ∉ url :: P))).length <
      (l.filter (fun u => decide (u ∉ P))).length := by
  induction l with
  | nil => simp at hl
  | cons a t ih =>
    rw [List.filter_cons, List.filter_cons]
    by_cases ha : a = url
    · subst ha
      have h1 : decide (a ∉ a :: P) = false := by simp
      have h2 : decide (a ∉ P) = true := by simp [hnp]
      rw [h1, h2, if_neg (by simp), if_pos rfl]
      have hle := (List.monotone_filter_right t
        (p := fun u => decide (u ∉ a :: P)) (q := fun u => decide (u ∉ P))
        (fun x hx => by
          simp only [decide_eq_true_eq] at hx ⊢
          exact fun hmem => hx (List.mem_cons_of_mem _ hmem))).length_le
      simp only [List.length_cons]
      omega
    · have hmem : url ∈ t := by
        rcases List.mem_cons.mp hl with h | h
        · exact absurd h.symm ha
        · exact h
      have heq : decide (a ∉ url :: P) = decide (a ∉ P) := by
        by_cases hP : a ∈ P <;> simp [hP, ha]
      rw [heq]
      by_cases hb : a ∈ P
      · rw [show decide (a ∉ P) = false from by simp [hb], if_neg (by simp)]
        exact ih hmem
      · rw [show decide (a ∉ P) = true from by simp [hb], if_pos rfl]
        simp only [List.length_cons]
        exact Nat.succ_lt_succ (ih hmem)

lemma newUrlCount_mono {g : Graph} {st st' : CrawlSt}
    (h : st.processed ⊆ st'.processed) : newUrlCount g st' ≤ newUrlCount g st := by
  unfold newUrlCount
  exact (List.monotone_filter_right _ (fun x hx => by
    simp only [decide_eq_true_eq] at hx ⊢
    exact fun hmem => hx (h hmem))).length_le

lemma visitMark_processed (force : Bool) (st : CrawlSt) (url : Url) :
    (visitMark force st url).processed = url :: st.processed := by
  simp only [visitMark]
  split <;> rfl

lemma newUrlCount_visitMark_lt (g : Graph) (force : Bool) (st : CrawlSt) (url : Url)
    (hu : url ∈ urlsOf g) (hnp : url ∉ st.processed) :
    newUrlCount g (visitMark force st url) < newUrlCount g st := by
  unfold newUrlCount
  rw [visitMark_processed]
  exact length_filter_lt _ _ _ (List.mem_dedup.mpr hu) hnp

lemma anchors_subset_urlsOf (g : Graph) (u x : Url) (hx : x ∈ anchors g u) :
    x ∈ urlsOf g := by
  unfold anchors at hx
  cases hd : dget g u with
  | none => rw [hd] at hx; simp at hx
  | some l =>
    rw [hd] at hx
    simp only [Option.getD_some] at hx
    unfold dget at hd
    cases hf : (g.find? fun p => decide (p.1 = u)) with
    | none => rw [hf] at hd; simp at hd
    | some p =>
      rw [hf] at hd
      simp at hd
      have hp : p ∈ g := List.mem_of_find?_eq_some hf
      unfold urlsOf
      refine List.mem_append.mpr (Or.inr ?_)
      rw [List.mem_flatten]
      exact ⟨p.2, List.mem_map_of_mem Prod.snd hp, hd ▸ hx⟩

lemma crawlChildren_total (g : Graph)
    (down : CrawlSt → Url → Option (List Url × CrawlSt)) (N : Nat)
    (hmono : ∀ st u r, down st u = some r → st.processed ⊆ r.2.processed)
    (hdown : ∀ st u, u ∈ urlsOf g → newUrlCount g st ≤ N → (down st u).isSome) :
    ∀ (l : List Url) (st : CrawlSt), (∀ u ∈ l, u ∈ urlsOf g) → newUrlCount g st ≤ N →
      (crawlChildren down st l).isSome := by
  intro l
  induction l with
  | nil => intro st _ _; simp [crawlChildren]
  | cons a t ih =>
    intro st hl hN
    simp only [crawlChildren]
    split
    · exact ih st (fun u hu => hl u (List.mem_cons_of_mem _ hu)) hN
    · have hs := hdown st a (hl a (List.mem_cons_self _ _)) hN
      cases hd : down st a with
      | none => rw [hd] at hs; simp at hs
      | some r₁ =>
        have hN₁ : newUrlCount g r₁.2 ≤ N :=
          le_trans (newUrlCount_mono (hmono st a r₁ hd)) hN
        have hrec := ih r₁.2 (fun u hu => hl u (List.mem_cons_of_mem _ hu)) hN₁
        obtain ⟨ls₁, st₁⟩ := r₁
        dsimp only
        cases hc : crawlChildren down st₁ t with
        | none => rw [hc] at hrec; simp at hrec
        | some r₂ =>
          obtain ⟨ls₂, st₂⟩ := r₂
          simp

lemma newUrlCount_pos (g : Graph) (st : CrawlSt) (url : Url)
    (hu : url ∈ urlsOf g) (hnp : url ∉ st.processed) : 0 < newUrlCount g st := by
  unfold newUrlCount
  have : url ∈ (urlsOf g).dedup.filter (fun u => decide (u ∉ st.processed)) :=
    List.mem_filter.mpr ⟨List.mem_dedup.mpr hu, by simpa using hnp⟩
  exact List.length_pos.mpr (List.ne_nil_of_mem this)

lemma crawl_total (g : Graph) (force : Bool) :
    ∀ (fuel : Nat) (st : CrawlSt) (url : Url), url ∈ urlsOf g →
      newUrlCount g st < fuel → (crawl g force fuel st url).isSome := by
  intro fuel
  induction fuel with
  | zero => intro st url hu h; omega
  | succ n ih =>
    intro st url hu h
    simp only [crawl, crawlStep]
    split
    · simp
    · rename_i hp
      cases hdoc : docTypeOf url with
      | none => simp
      | some d =>
        simp only []
        have hmark := newUrlCount_visitMark_lt g force st url hu hp
        have hposi := newUrlCount_pos g st url hu hp
        cases n with
        | zero => omega
        | succ m =>
          have htot := crawlChildren_total g (crawl g force (m + 1)) m
            (fun st' u' r' h' => (crawl_prop g force (m + 1) st' u' r' h').1)
            (fun st' u' hu' hN => ih st' u' hu' (by omega))
            ((anchors g url).filter (linkFilter d)) (visitMark force st url)
            (fun u hu' => anchors_subset_urlsOf g url u (List.mem_of_mem_filter hu'))
            (by omega)
          cases hc : crawlChildren (crawl g force (m + 1)) (visitMark force st url)
              ((anchors g url).filter (linkFilter d)) with
          | none => rw [hc] at htot; simp at htot
          | some r₄ =>
            obtain ⟨ls₄, st₄⟩ := r₄
            simp


lemma visitMark_trace (force : Bool) (st : CrawlSt) (url : Url) :
    (visitMark force st url).trace = st.trace ++ [url] := by
  simp only [visitMark]
  split <;> rfl

lemma visitMark_sim {s₁ s₂ : CrawlSt} (force : Bool) (url : Url) (h : SimR s₁ s₂) :
    SimR (visitMark force s₁ url) (visitMark force s₂ url) :=
  ⟨by rw [visitMark_processed, visitMark_processed, h.1],
    by rw [visitMark_trace, visitMark_trace, h.2]⟩

lemma crawlChildren_sim (down : CrawlSt → Url → Option (List Url × CrawlSt))
    (hdown : ∀ s₁ s₂ u, SimR s₁ s₂ → OptSim (down s₁ u) (down s₂ u)) :
    ∀ (l : List Url) (s₁ s₂ : CrawlSt), SimR s₁ s₂ →
      OptSim (crawlChildren down s₁ l) (crawlChildren down s₂ l) := by
  intro l
  induction l with
  | nil => intro s₁ s₂ h; exact ⟨rfl, h⟩
  | cons a t ih =>
    intro s₁ s₂ h
    simp only [crawlChildren]
    by_cases hp : a ∈ s₁.processed
    · rw [if_pos hp, if_pos (h.1 ▸ hp)]
      exact ih s₁ s₂ h
    · rw [if_neg hp, if_neg (h.1 ▸ hp)]
      have hstep := hdown s₁ s₂ a h
      cases h₁ : down s₁ a with
      | none =>
        cases h₂ : down s₂ a with
        | none => trivial
        | some r₂ => rw [h₁, h₂] at hstep; exact hstep.elim
      | some r₁ =>
        cases h₂ : down s₂ a with
        | none => rw [h₁, h₂] at hstep; exact hstep.elim
        | some r₂ =>
          rw [h₁, h₂] at hstep
          obtain ⟨l₁, s₁x⟩ := r₁
          obtain ⟨l₂, s₂x⟩ := r₂
          obtain ⟨hl, hsim⟩ := hstep
          dsimp only
          have hrec := ih s₁x s₂x hsim
          cases hc₁ : crawlChildren down s₁x t with
          | none =>
            cases hc₂ : crawlChildren down s₂x t with
            | none => trivial
            | some rr₂ => rw [hc₁, hc₂] at hrec; exact hrec.elim
          | some rr₁ =>
            cases hc₂ : crawlChildren down s₂x t with
            | none => rw [hc₁, hc₂] at hrec; exact hrec.elim
            | some rr₂ =>
              rw [hc₁, hc₂] at hrec
              obtain ⟨ll₁, ss₁⟩ := rr₁
              obtain ⟨ll₂, ss₂⟩ := rr₂
              obtain ⟨hll, hsim₂⟩ := hrec
              exact ⟨by rw [hl, hll], hsim₂⟩

lemma crawl_sim (g : Graph) (force : Bool) :
    ∀ (fuel : Nat) (url : Url) (s₁ s₂ : CrawlSt), SimR s₁ s₂ →
      OptSim (crawl g force fuel s₁ url) (crawl g force fuel s₂ url) := by
  intro fuel
  induction fuel with
  | zero => intro url s₁ s₂ _; trivial
  | succ n ih =>
    intro url s₁ s₂ h
    simp only [crawl, crawlStep]
    by_cases hp : url ∈ s₁.processed
    · rw [if_pos hp, if_pos (h.1 ▸ hp)]
      exact ⟨rfl, h⟩
    · rw [if_neg hp, if_neg (h.1 ▸ hp)]
      cases hdoc : docTypeOf url with
      | none => exact ⟨rfl, visitMark_sim force url h⟩
      | some d =>
        dsimp only
        have hrec := crawlChildren_sim (crawl g force n)
          (fun a b u hh => ih u a b hh)
          ((anchors g url).filter (linkFilter d))
          (visitMark force s₁ url) (visitMark force s₂ url)
          (visitMark_sim force url h)
        cases hc₁ : crawlChildren (crawl g force n) (visitMark force s₁ url)
            ((anchors g url).filter (linkFilter d)) with
        | none =>
          cases hc₂ : crawlChildren (crawl g force n) (visitMark force s₂ url)
              ((anchors g url).filter (linkFilter d)) with
          | none => trivial
          | some rr₂ => rw [hc₁, hc₂] at hrec; exact hrec.elim
        | some rr₁ =>
          cases hc₂ : crawlChildren (crawl g force n) (visitMark force s₂ url)
              ((anchors g url).filter (linkFilter d)) with
          | none => rw [hc₁, hc₂] at hrec; exact hrec.elim
          | some rr₂ =>
            rw [hc₁, hc₂] at hrec
            obtain ⟨ll₁, ss₁⟩ := rr₁
            obtain ⟨ll₂, ss₂⟩ := rr₂
            obtain ⟨hll, hsim₂⟩ := hrec
            exact ⟨by rw [hll], hsim₂⟩


lemma strContains_of_append (u p d : String)
    (h : strContains u (p ++ d) = true) : strContains u p = true := by
  unfold strContains at h ⊢
  rw [List.any_eq_true] at h ⊢
  obtain ⟨t, ht, hpre⟩ := h
  refine ⟨t, ht, ?_⟩
  rw [List.isPrefixOf_iff_prefix] at hpre ⊢
  have happ : p.toList <+: (p ++ d).toList := by
    have : (p ++ d).toList = p.toList ++ d.toList := by simp
    rw [this]
    exact List.prefix_append _ _
  exact happ.trans hpre

lemma linkFilter_scope (d u : String) (h : linkFilter d u = true) :
    strContains u "/documentation/en-us/" = true ∧ strContains u "#" = false ∧
      strEndsWith u ".png" = false ∧ strEndsWith u ".jpg" = false := by
  unfold linkFilter at h
  simp only [Bool.and_eq_true, Bool.not_eq_true'] at h
  exact ⟨strContains_of_append u "/documentation/en-us/" d h.1.1.1, h.1.1.2, h.1.2, h.2⟩

lemma crawlChildren_trace_new (down : CrawlSt → Url → Option (List Url × CrawlSt))
    (hdown : ∀ st u r, down st u = some r →
      ∀ v ∈ r.2.trace, v ∈ st.trace ∨ v = u ∨ ∃ d, linkFilter d v = true) :
    ∀ (l : List Url) (st : CrawlSt) (r), crawlChildren down st l = some r →
      ∀ v ∈ r.2.trace, v ∈ st.trace ∨ v ∈ l ∨ ∃ d, linkFilter d v = true := by
  intro l
  induction l with
  | nil =>
    intro st r h v hv
    simp only [crawlChildren] at h
    cases h
    exact Or.inl hv
  | cons a t ih =>
    intro st r h v hv
    simp only [crawlChildren] at h
    split at h
    · rcases ih st r h v hv with h₀ | h₀ | h₀
      · exact Or.inl h₀
      · exact Or.inr (Or.inl (List.mem_cons_of_mem _ h₀))
      · exact Or.inr (Or.inr h₀)
    · cases hd : down st a with
      | none => rw [hd] at h; exact absurd h (by simp)
      | some r₁ =>
        rw [hd] at h
        obtain ⟨ls₁, st₁⟩ := r₁
        simp only [] at h
        cases hc : crawlChildren down st₁ t with
        | none => rw [hc] at h; exact absurd h (by simp)
        | some r₂ =>
          rw [hc] at h
          obtain ⟨ls₂, st₂⟩ := r₂
          simp only [Option.some_inj] at h
          subst h
          rcases ih st₁ (ls₂, st₂) hc v hv with h₀ | h₀ | h₀
          · rcases hdown st a (ls₁, st₁) hd v h₀ with h₁ | h₁ | h₁
            · exact Or.inl h₁
            · exact Or.inr (Or.inl (h₁ ▸ List.mem_cons_self _ _))
            · exact Or.inr (Or.inr h₁)
          · exact Or.inr (Or.inl (List.mem_cons_of_mem _ h₀))
          · exact Or.inr (Or.inr h₀)

lemma crawl_trace_new (g : Graph) (force : Bool) :
    ∀ (fuel : Nat) (st : CrawlSt) (url : Url) (r), crawl g force fuel st url = some r →
      ∀ v ∈ r.2.trace, v ∈ st.trace ∨ v = url ∨ ∃ d, linkFilter d v = true := by
  intro fuel
  induction fuel with
  | zero => intro st url r h; exact absurd h (by simp [crawl])
  | succ n ih =>
    intro st url r h v hv
    simp only [crawl, crawlStep] at h
    split at h
    · cases h
      exact Or.inl hv
    · cases hdoc : docTypeOf url with
      | none =>
        rw [hdoc] at h
        cases h
        rw [visitMark_trace] at hv
        rcases List.mem_append.mp hv with h₀ | h₀
        · exact Or.inl h₀
        · exact Or.inr (Or.inl (List.mem_singleton.mp h₀))
      | some d =>
        rw [hdoc] at h
        simp only [] at h
        cases hc : crawlChildren (crawl g force n) (visitMark force st url)
            ((anchors g url).filter (linkFilter d)) with
        | none => rw [hc] at h; exact absurd h (by simp)
        | some r₄ =>
          rw [hc] at h
          obtain ⟨ls₄, st₄⟩ := r₄
          simp only [Option.some_inj] at h
          subst h
          rcases crawlChildren_trace_new (crawl g force n)
              (fun st' u' r' h' => ih st' u' r' h') _ _ (ls₄, st₄) hc v hv with
            h₀ | h₀ | h₀
          · rw [visitMark_trace] at h₀
            rcases List.mem_append.mp h₀ with h₁ | h₁
            · exact Or.inl h₁
            · exact Or.inr (Or.inl (List.mem_singleton.mp h₁))
          · exact Or.inr (Or.inr ⟨d, List.of_mem_filter h₀⟩)
          · exact Or.inr (Or.inr h₀)


/-- C3: the recursive discoverer is cycle safe.  With a stack budget of
two more than the number of distinct graph urls, the traversal completes
(it never exhausts the modelled stack, on any graph, cyclic ones
included); the navigation trace of a run never repeats a url (each url
is fetched at most once per run, because a url enters the run-local
visited set before its children are explored); and a call on an
already-visited url returns the empty list at once with the state — in
particular the trace — unchanged, i.e. without fetching. -/
theorem crawl_terminates_visits_once :
    (∀ (g : Graph) (force : Bool) (files : List String) (seed : Url) (fuel : Nat),
      (urlsOf g).dedup.length + 2 ≤ fuel →
      (crawl g force fuel (initCrawl files) seed).isSome = true)
    ∧ (∀ (g : Graph) (force : Bool) (fuel : Nat) (files : List String) (seed : Url)
        (r : List Url × CrawlSt),
        crawl g force fuel (initCrawl files) seed = some r → r.2.trace.Nodup)
    ∧ (∀ (g : Graph) (force : Bool) (fuel : Nat) (st : CrawlSt) (url : Url),
        url ∈ st.processed → 0 < fuel → crawl g force fuel st url = some ([], st)) := by
  refine ⟨?_, ?_, ?_⟩
  · intro g force files seed fuel hfuel
    obtain ⟨n, rfl⟩ : ∃ n, fuel = n + 1 := ⟨fuel - 1, by omega⟩
    show (crawlStep g force (crawl g force n) (initCrawl files) seed).isSome = true
    unfold crawlStep
    split
    · simp
    · rename_i hp
      cases hdoc : docTypeOf seed with
      | none => simp
      | some d =>
        dsimp only
        have hN : newUrlCount g (visitMark force (initCrawl files) seed)
            ≤ (urlsOf g).dedup.length :=
          le_trans (List.length_filter_le _ _) (le_refl _)
        have htot := crawlChildren_total g (crawl g force n)
          ((urlsOf g).dedup.length)
          (fun st' u' r' h' => (crawl_prop g force n st' u' r' h').1)
          (fun st' u' hu' hN' => crawl_total g force n st' u' hu' (by omega))
          ((anchors g seed).filter (linkFilter d))
          (visitMark force (initCrawl files) seed)
          (fun u hu' => anchors_subset_urlsOf g seed u (List.mem_of_mem_filter hu'))
          hN
        cases hc : crawlChildren (crawl g force n)
            (visitMark force (initCrawl files) seed)
            ((anchors g seed).filter (linkFilter d)) with
        | none => rw [hc] at htot; simp at htot
        | some r₄ =>
          obtain ⟨ls₄, st₄⟩ := r₄
          rfl
  · intro g force fuel files seed r h
    exact ((crawl_prop g force fuel _ _ r h).2.2.2.2.2
      ⟨List.nodup_nil, fun u hu => absurd hu (List.not_mem_nil u)⟩).1
  · intro g force fuel st url hp hfuel
    obtain ⟨n, rfl⟩ : ∃ n, fuel = n + 1 := ⟨fuel - 1, by omega⟩
    simp only [crawl, crawlStep]
    rw [if_pos hp]

/-- C5 amended: a second `run` with the same seed and no force flag
re-navigates exactly the pages of the first run (the trace repeats, so
the fetches are not zero), but extracts and saves nothing, because every
page visited by the first run left its markdown file on disk; and
`process_url` does skip a completed url without any fetch, returning
`True` with the state unchanged and no notifications. -/
theorem second_run_no_refetch_no_resave
    (g : Graph) (files0 : List String) (seed : Url) (fuel : Nat)
    (ls₁ ls₂ : List Url) (st₁ st₂ : CrawlSt)
    (h1 : crawl g false fuel (initCrawl files0) seed = some (ls₁, st₁))
    (h2 : crawl g false fuel (initCrawl st₁.files) seed = some (ls₂, st₂)) :
    ls₂ = ls₁ ∧ st₂.trace = st₁.trace ∧ st₂.saved = [] ∧
      (∀ (dst : DMgrState) (u : Url) (resp : Except String (Nat × String))
        (pageOk : Except String Unit) (a b : Bool) (ts : String),
        u ∈ dst.completed_urls →
        process_url dst u resp pageOk false a b ts = (dst, true, [])) := by
  have hsim := crawl_sim g false fuel seed (initCrawl files0) (initCrawl st₁.files)
    ⟨rfl, rfl⟩
  rw [h1, h2] at hsim
  obtain ⟨hls, hsim'⟩ := hsim
  obtain ⟨hpr, htr⟩ := hsim'
  refine ⟨hls.symm, htr.symm, ?_, fun dst u resp pageOk a b ts hu =>
    process_url_completed_skip dst u resp pageOk a b ts hu⟩
  by_contra hne
  obtain ⟨u, hu⟩ := List.exists_mem_of_ne_nil _ hne
  have hp2 := crawl_prop g false fuel _ _ _ h2
  rcases hp2.2.2.2.2.1 u hu with h₀ | ⟨ht, _, hf⟩
  · exact absurd h₀ (List.not_mem_nil u)
  · have hfu : filePathOf u ∉ st₁.files := hf rfl
    have hu1 : u ∈ st₁.trace := htr ▸ ht
    have hp1 := crawl_prop g false fuel _ _ _ h1
    rcases hp1.2.2.2.1 u hu1 with h₀ | ⟨_, _, hfile⟩
    · exact absurd h₀ (List.not_mem_nil u)
    · exact hfu hfile

/-- C6 amended: every url the crawler navigates to, other than what was
already in the trace and the call's own root, passed the link filter of
its parent page: it contains the substring `/documentation/en-us/`, has
no in-page anchor `#`, and does not end in `.png` or `.jpg`.  The filter
does not inspect the host, so same-host is not guaranteed (see the
counterexample). -/
theorem crawl_link_scope (g : Graph) (force : Bool) (fuel : Nat) (st : CrawlSt)
    (url : Url) (r : List Url × CrawlSt) (h : crawl g force fuel st url = some r) :
    ∀ v ∈ r.2.trace, v ∈ st.trace ∨ v = url ∨
      (strContains v "/documentation/en-us/" = true ∧ strContains v "#" = false ∧
        strEndsWith v ".png" = false ∧ strEndsWith v ".jpg" = false) := by
  intro v hv
  rcases crawl_trace_new g force fuel st url r h v hv with h₀ | h₀ | ⟨d, hd⟩
  · exact Or.inl h₀
  · exact Or.inr (Or.inl h₀)
  · exact Or.inr (Or.inr (linkFilter_scope d v hd))

/-- Witness for C3 on the cyclic two-page graph A -> B -> A: the crawl
completes within the fuel bound, navigates [A, B] (each page exactly
once), and a repeat call on a visited url returns `[]` with no fetch. -/
theorem crawl_terminates_visits_once_witness :
    ((urlsOf [("https://h/documentation/en-us/a/a/1",
        ["https://h/documentation/en-us/a/a/2"]),
      ("https://h/documentation/en-us/a/a/2",
        ["https://h/documentation/en-us/a/a/1"])]).dedup.length + 2 ≤ 4) ∧
    ((crawl [("https://h/documentation/en-us/a/a/1",
        ["https://h/documentation/en-us/a/a/2"]),
      ("https://h/documentation/en-us/a/a/2",
        ["https://h/documentation/en-us/a/a/1"])] false 4 (initCrawl [])
        "https://h/documentation/en-us/a/a/1").isSome = true) ∧
    ((crawl [("https://h/documentation/en-us/a/a/1",
        ["https://h/documentation/en-us/a/a/2"]),
      ("https://h/documentation/en-us/a/a/2",
        ["https://h/documentation/en-us/a/a/1"])] false 4 (initCrawl [])
        "https://h/documentation/en-us/a/a/1").map (fun r => r.2.trace)
      = some ["https://h/documentation/en-us/a/a/1",
          "https://h/documentation/en-us/a/a/2"]) ∧
    ("x" ∈ (⟨["x"], [], [], []⟩ : CrawlSt).processed) ∧ (0 < 1) ∧
    (crawl ([] : Graph) false 1 ⟨["x"], [], [], []⟩ "x"
      = some ([], ⟨["x"], [], [], []⟩)) :=
  ⟨by decide,
    crawl_terminates_visits_once.1 _ false [] "https://h/documentation/en-us/a/a/1" 4
      (by decide),
    by decide, by decide, by decide,
    crawl_terminates_visits_once.2.2 [] false 1 ⟨["x"], [], [], []⟩ "x"
      (by decide) (by decide)⟩

/-- C5 counterexample: on the one-page graph with seed
`https://h/a`, the first run navigates the page and saves `a.md`; a
second run started from the resulting disk state navigates the page
*again* (its trace is nonempty), refuting the claim that the second run
performs zero fetches. -/
theorem second_run_counterexample :
    crawl [] false 2 (initCrawl []) "https://h/a"
        = some ([], ⟨["https://h/a"], ["a.md"], ["https://h/a"], ["https://h/a"]⟩) ∧
    crawl [] false 2 (initCrawl ["a.md"]) "https://h/a"
        = some ([], ⟨["https://h/a"], ["a.md"], ["https://h/a"], []⟩) ∧
    ¬ (⟨["https://h/a"], ["a.md"], ["https://h/a"], []⟩ : CrawlSt).trace = [] := by
  decide

/-- Witness for the amended C5 on the one-page graph: identical link
lists and traces across the two runs, nothing saved the second time, and
`process_url` skips a completed url without fetching. -/
theorem second_run_no_refetch_no_resave_witness :
    (crawl [] false 2 (initCrawl []) "https://h/a"
      = some ([], ⟨["https://h/a"], ["a.md"], ["https://h/a"], ["https://h/a"]⟩)) ∧
    (crawl [] false 2
        (initCrawl (⟨["https://h/a"], ["a.md"], ["https://h/a"],
          ["https://h/a"]⟩ : CrawlSt).files) "https://h/a"
      = some ([], ⟨["https://h/a"], ["a.md"], ["https://h/a"], []⟩)) ∧
    (([] : List Url) = [] ∧
      (⟨["https://h/a"], ["a.md"], ["https://h/a"], []⟩ : CrawlSt).trace
        = (⟨["https://h/a"], ["a.md"], ["https://h/a"], ["https://h/a"]⟩ : CrawlSt).trace ∧
      (⟨["https://h/a"], ["a.md"], ["https://h/a"], []⟩ : CrawlSt).saved = [] ∧
      (∀ (dst : DMgrState) (u : Url) (resp : Except String (Nat × String))
        (pageOk : Except String Unit) (a b : Bool) (ts : String),
        u ∈ dst.completed_urls →
        process_url dst u resp pageOk false a b ts = (dst, true, []))) ∧
    (process_url ⟨["u"], [], [], [], []⟩ "u" (Except.ok (200, "x")) (Except.ok ())
        false true true "t" = (⟨["u"], [], [], [], []⟩, true, [])) :=
  ⟨by decide, by decide,
    second_run_no_refetch_no_resave [] [] "https://h/a" 2 [] []
      ⟨["https://h/a"], ["a.md"], ["https://h/a"], ["https://h/a"]⟩
      ⟨["https://h/a"], ["a.md"], ["https://h/a"], []⟩ (by decide) (by decide),
    (second_run_no_refetch_no_resave [] [] "https://h/a" 2 [] []
      ⟨["https://h/a"], ["a.md"], ["https://h/a"], ["https://h/a"]⟩
      ⟨["https://h/a"], ["a.md"], ["https://h/a"], []⟩ (by decide) (by decide)).2.2.2
      ⟨["u"], [], [], [], []⟩ "u" (Except.ok (200, "x")) (Except.ok ()) true true "t"
      (by decide)⟩

/-- C6 counterexample: from the page
`https://dev.epicgames.com/documentation/en-us/a/a`, the discovered link
`https://other.example.com/documentation/en-us/a/x` lies on a different
host, yet it passes the filter (which only checks for the documentation
substring) and the crawler fetches it. -/
theorem link_scope_counterexample :
    (crawl [("https://dev.epicgames.com/documentation/en-us/a/a",
        ["https://other.example.com/documentation/en-us/a/x"])] false 5
        (initCrawl []) "https://dev.epicgames.com/documentation/en-us/a/a").map
        (fun r => r.2.trace)
      = some ["https://dev.epicgames.com/documentation/en-us/a/a",
          "https://other.example.com/documentation/en-us/a/x"] ∧
    ¬ hostOf "https://other.example.com/documentation/en-us/a/x"
        = hostOf "https://dev.epicgames.com/documentation/en-us/a/a" := by
  decide

/-- Witness for the amended C6 on the one-page crawl of `https://h/a`. -/
theorem crawl_link_scope_witness :
    (crawl [] false 2 (initCrawl []) "https://h/a"
        = some ([], ⟨["https://h/a"], ["a.md"], ["https://h/a"], ["https://h/a"]⟩)) ∧
    (∀ v ∈ (⟨["https://h/a"], ["a.md"], ["https://h/a"],
        ["https://h/a"]⟩ : CrawlSt).trace,
      v ∈ (initCrawl []).trace ∨ v = "https://h/a" ∨
        (strContains v "/documentation/en-us/" = true ∧ strContains v "#" = false ∧
          strEndsWith v ".png" = false ∧ strEndsWith v ".jpg" = false)) :=
  ⟨by decide,
    crawl_link_scope [] false 2 (initCrawl []) "https://h/a"
      ([], ⟨["https://h/a"], ["a.md"], ["https://h/a"], ["https://h/a"]⟩) (by decide)⟩

/-! ## The persistent state store: C2 and C7 -/

/-- C2: the persisted snapshot does not round-trip at all through
`download_manager.DownloadManager`: `save_state` pickles only the dict
keys `completed_urls`, `failed_downloads` and `retry_queue` (there is no
`recursionFailures` field in the persisted `DownloadState`), while
`_load_state` also subscripts `recursion_errors`, `status_map`,
`should_stop` and `browser`, so loading any snapshot written by
`save_state` raises `KeyError` on `recursion_errors` instead of
restoring the state. -/
theorem load_state_of_save_state_raises (st : DLState) :
    DM_load_state (stateDict st) = Except.error "KeyError: recursion_errors" := rfl

/-- C7 counterexample: loading an existing state file with corrupt
content raises the unpickling error out of `DownloadState.load` — the
claim that every byte content yields a fresh empty state without an
exception is false. -/
theorem corrupt_state_counterexample :
    DownloadState_load (some (FileBytes.garbage "x"))
      = Except.error "UnpicklingError: x" := rfl

/-- C7 amended: only an *absent* state file is treated as a fresh start
(`load` returns `None`); corrupt content makes `pickle.load` raise and
the exception propagates out of the state store, since the method has no
try/except; a well-formed snapshot as written by `save` loads back
losslessly. -/
theorem state_load_behavior :
    DownloadState_load none = Except.ok none ∧
    (∀ s, DownloadState_load (some (FileBytes.garbage s))
      = Except.error ("UnpicklingError: " ++ s)) ∧
    (∀ st : DLState, DownloadState_load (some (FileBytes.pickled (stateDict st)))
      = Except.ok (some st)) :=
  ⟨rfl, fun _ => rfl, fun _ => rfl⟩

/-! ## Observers and load_status: C9 and C10 -/

/-- C9: the two observer callbacks are write-only collaborators of
`process_url`: for every url, fetch outcome, page outcome, force flag
and timestamp, the resulting manager state and the returned boolean are
identical whether the callbacks are attached or not; only the emitted
notification list differs. -/
theorem observers_no_influence (st : DMgrState) (url : Url)
    (resp : Except String (Nat × String)) (pageOk : Except String Unit)
    (force : Bool) (ts : String) (a b c d : Bool) :
    (process_url st url resp pageOk force a b ts).1
        = (process_url st url resp pageOk force c d ts).1 ∧
    (process_url st url resp pageOk force a b ts).2.1
        = (process_url st url resp pageOk force c d ts).2.1 := by
  unfold process_url
  split
  · exact ⟨rfl, rfl⟩
  · cases resp with
    | error e => exact ⟨rfl, rfl⟩
    | ok p =>
      obtain ⟨code, body⟩ := p
      dsimp only
      split
      · exact ⟨rfl, rfl⟩
      · cases pageOk with
        | error e => exact ⟨rfl, rfl⟩
        | ok u => exact ⟨rfl, rfl⟩


lemma dget_dictSet_ne {α : Type} (m : List (Url × α)) (k k' : Url) (v : α)
    (h : ¬ k' = k) : dget (dictSet m k v) k' = dget m k' := by
  induction m with
  | nil =>
    simp only [dictSet, dget, List.find?]
    rw [show (decide (k = k')) = false from by
      simp only [decide_eq_false_iff_not]
      exact fun hc => h hc.symm]
  | cons p t ih =>
    obtain ⟨k₁, v₁⟩ := p
    by_cases hk : k₁ = k
    · subst hk
      simp only [dictSet, if_pos rfl, dget, List.find?]
      rw [show (decide (k₁ = k')) = false from by
        simp only [decide_eq_false_iff_not]
        exact fun hc => h hc.symm]
    · simp only [dictSet, if_neg hk, dget, List.find?]
      by_cases hk' : k₁ = k'
      · rw [show (decide (k₁ = k')) = true from by simp [hk']]
      · rw [show (decide (k₁ = k')) = false from by simp [hk']]
        exact ih

lemma dget_isSome_dictSet {α : Type} (m : List (Url × α)) (k' : Url) (v : α)
    (k : Url) (h : k = k' ∨ (dget m k).isSome = true) :
    (dget (dictSet m k' v) k).isSome = true := by
  by_cases hk : k = k'
  · subst hk
    rw [dget_dictSet_self]
    rfl
  · rw [dget_dictSet_ne m k' k v hk]
    rcases h with h | h
    · exact absurd h hk
    · exact h

lemma mem_setAdd_of_mem (s : List Url) (u v : Url) (h : u ∈ s) : u ∈ setAdd s v := by
  unfold setAdd
  split
  · exact h
  · exact List.mem_append.mpr (Or.inl h)

lemma load_status_aux :
    ∀ (m : List (Url × StatusEntry)) (st : DMgrState) (url : Url),
      ((url ∈ st.completed_urls ∧ (dget st.failed_downloads url).isSome = true ∧
          url ∈ st.retry_queue) ∨ url ∈ m.map Prod.fst) →
      (url ∈ (m.foldl applyStatusEntry st).completed_urls ∧
        (dget (m.foldl applyStatusEntry st).failed_downloads url).isSome = true ∧
        url ∈ (m.foldl applyStatusEntry st).retry_queue) := by
  intro m
  induction m with
  | nil =>
    intro st url h
    rcases h with h | h
    · exact h
    · simp at h
  | cons p t ih =>
    intro st url h
    simp only [List.foldl_cons]
    apply ih
    rcases h with ⟨h₁, h₂, h₃⟩ | hm
    · exact Or.inl ⟨mem_setAdd_of_mem _ _ _ h₁,
        dget_isSome_dictSet _ _ _ _ (Or.inr h₂),
        List.mem_append.mpr (Or.inl h₃)⟩
    · simp only [List.map_cons, List.mem_cons] at hm
      rcases hm with rfl | hm
      · exact Or.inl ⟨mem_setAdd_self _ _,
          dget_isSome_dictSet _ _ _ _ (Or.inl rfl),
          List.mem_append.mpr (Or.inr (by simp))⟩
      · exact Or.inr hm

/-- C10: after `load_status` reads a status file, every url of the
status map is simultaneously in `completed_urls`, a key of
`failed_downloads` and an element of `retry_queue`; in particular such a
previously-failed url is treated as completed by `process_url`, which
skips it without fetching. -/
theorem load_status_marks_completed (st : DMgrState)
    (m : List (Url × StatusEntry)) (url : Url) (hm : url ∈ m.map Prod.fst) :
    url ∈ (load_status st m).completed_urls ∧
    (dget (load_status st m).failed_downloads url).isSome = true ∧
    url ∈ (load_status st m).retry_queue ∧
    (∀ (resp : Except String (Nat × String)) (pageOk : Except String Unit)
      (a b : Bool) (ts : String),
      process_url (load_status st m) url resp pageOk false a b ts
        = (load_status st m, true, [])) := by
  have h := load_status_aux m { st with status_map := m } url (Or.inr hm)
  exact ⟨h.1, h.2.1, h.2.2, fun resp pageOk a b ts =>
    process_url_completed_skip _ _ resp pageOk a b ts h.1⟩

/-- Witness for C10 with a one-entry status map. -/
theorem load_status_marks_completed_witness :
    ("u" ∈ ([("u", (⟨500, "HTTP 500", "t"⟩ : StatusEntry))].map Prod.fst)) ∧
    "u" ∈ (load_status ⟨[], [], [], [], []⟩
        [("u", ⟨500, "HTTP 500", "t"⟩)]).completed_urls ∧
    (dget (load_status ⟨[], [], [], [], []⟩
        [("u", ⟨500, "HTTP 500", "t"⟩)]).failed_downloads "u").isSome = true ∧
    "u" ∈ (load_status ⟨[], [], [], [], []⟩
        [("u", ⟨500, "HTTP 500", "t"⟩)]).retry_queue ∧
    (process_url (load_status ⟨[], [], [], [], []⟩ [("u", ⟨500, "HTTP 500", "t"⟩)])
        "u" (Except.ok (200, "x")) (Except.ok ()) false true true "ts"
      = (load_status ⟨[], [], [], [], []⟩ [("u", ⟨500, "HTTP 500", "t"⟩)], true, [])) := by
  have h := load_status_marks_completed ⟨[], [], [], [], []⟩
    [("u", ⟨500, "HTTP 500", "t"⟩)] "u" (by decide)
  exact ⟨by decide, h.1, h.2.1, h.2.2.1,
    h.2.2.2 (Except.ok (200, "x")) (Except.ok ()) true true "ts"⟩

end FNBrainVault
